import Mathlib

/-!
Shallow embedding of the suite-sanctuary test-management core: the local
data-access layer (`src/services/dataService.ts`) and the test-run execution
engine (`src/components/TestRuns/TestRunExecutor.tsx`, together with
`handleRerunFailed` from `src/components/TestRuns/EnhancedTestRunsList.tsx`).

Modelling conventions:
* ISO-8601 timestamp strings are modelled as natural numbers (`Time`, in
  milliseconds); for timestamps produced by `new Date().toISOString()` the
  lexicographic string order used by the code coincides with numeric order.
  The empty-string timestamp `''` used as an initial value for
  `TestExecution.executedAt` is modelled as `0`.
* JavaScript objects with possibly-missing keys are modelled as structures
  whose omittable fields have type `Option _`; `none` stands for an absent
  key (or an `undefined` value).  Spreading an update object over an
  existing one (`{...existing, ...patch}`) takes the patch's field exactly
  when the key is present: `Option.getD` for fields the store always holds,
  `oOr` for fields the store may omit.
* `uuidv4()` and `new Date()` are ambient effects in the code; they are
  modelled as explicit `newId` / `now` parameters.
* `localStorage` is modelled by passing the relevant collection (a list) in
  and out of each operation.
-/

abbrev Time := Nat

/-- `{...existing, ...patch}` on a key the store may omit: the patch wins
exactly when its key is present. -/
def oOr {α : Type} (a b : Option α) : Option α :=
  match a with
  | some v => some v
  | none => b

/-- JavaScript truthiness of an optional string field (`if (x.id)`):
present and not the empty string. -/
def idTruthy : Option String → Bool
  | some s => !s.isEmpty
  | none => false

/-- `array[index] = v` after `findIndex`: replace the first element
satisfying the predicate. -/
def replaceFirst {α : Type} (q : α → Bool) (v : α) : List α → List α
  | [] => []
  | x :: xs => if q x then v :: xs else x :: replaceFirst q v xs

/-- `'Low' | 'Medium' | 'High'` from `src/types/index.ts`. -/
inductive Priority
  | low | medium | high
deriving DecidableEq, Repr

/-- `'Draft' | 'Active' | 'Archived'` from `src/types/index.ts`. -/
inductive TestCaseStatus
  | draft | active | archived
deriving DecidableEq, Repr

/-- `ExecutionStatus` from `src/types/index.ts`. -/
inductive ExecStatus
  | pass | fail | skipped | blocked | inProgress | notRun | notExecuted | other
deriving DecidableEq, Repr

/-- `TestRunStatus` from `src/types/index.ts`. -/
inductive RunStatus
  | notStarted | inProgress | completed | paused | cancelled
deriving DecidableEq, Repr

/-- `TestCaseHistory.changeType` from `src/types/index.ts`. -/
inductive ChangeType
  | created | updated | deleted | restored
deriving DecidableEq, Repr

/-- `AuditLog.entityType` from `src/types/index.ts`. -/
inductive EntityType
  | testCase | testSuite | testRun | testExecution
deriving DecidableEq, Repr

/-- `FileAttachment` from `src/types/index.ts`. -/
structure FileAttachment where
  id : String
  name : String
  size : Nat
  type : String
  base64Data : String
  uploadedAt : Time
deriving DecidableEq, Repr

/-- `TestStep` from `src/types/index.ts`. -/
structure TestStep where
  id : String
  description : String
  expectedResult : String
deriving DecidableEq, Repr

/-- `TestStepResult` from `src/types/index.ts`. -/
structure TestStepResult where
  stepId : String
  status : ExecStatus
  actualResult : String
  comments : Option String
  screenshots : Option (List FileAttachment)
deriving DecidableEq, Repr

/-- `TestExecution` from `src/types/index.ts`.  `executedAt` is a required
string in the source, initially `''` (modelled `0`). -/
structure TestExecution where
  id : String
  testCaseId : String
  status : ExecStatus
  comments : String
  actualResult : Option String
  attachments : List FileAttachment
  executedAt : Time
  executedBy : String
  runId : String
  startedAt : Option Time
  duration : Option Nat
  stepResults : Option (List TestStepResult)
deriving DecidableEq, Repr

/-- `TestCase` from `src/types/index.ts`, with the shape the store holds
after `saveTestCase` fills defaults (`actualResult`, `executionStatus` get
concrete defaults on create; `customStatus`, `suiteId` may stay absent). -/
structure TestCase where
  id : String
  title : String
  description : String
  preconditions : String
  steps : List TestStep
  expectedResults : String
  actualResult : String
  priority : Priority
  status : TestCaseStatus
  executionStatus : ExecStatus
  customStatus : Option String
  tags : List String
  screenshots : List FileAttachment
  createdAt : Time
  updatedAt : Time
  version : Nat
  suiteId : Option String
deriving DecidableEq, Repr

/-- The caller-supplied update object of `saveTestCase(testCase:
Partial&lt;TestCase&gt;)`: every key may be absent. -/
structure TestCaseInput where
  id : Option String := none
  title : Option String := none
  description : Option String := none
  preconditions : Option String := none
  steps : Option (List TestStep) := none
  expectedResults : Option String := none
  actualResult : Option String := none
  priority : Option Priority := none
  status : Option TestCaseStatus := none
  executionStatus : Option ExecStatus := none
  customStatus : Option String := none
  tags : Option (List String) := none
  screenshots : Option (List FileAttachment) := none
  createdAt : Option Time := none
  updatedAt : Option Time := none
  version : Option Nat := none
  suiteId : Option String := none
deriving DecidableEq, Repr

/-- `TestSuite` from `src/types/index.ts`. -/
structure TestSuite where
  id : String
  name : String
  description : String
  parentId : Option String
  testCaseIds : List String
  tags : Option (List String)
  priority : Option Priority
  groups : Option (List String)
  createdAt : Time
  updatedAt : Time
deriving DecidableEq, Repr

/-- A stored test run.  The create branch of `saveTestRun` writes only
`id`, `name`, `description`, `suiteId`, `executions`, `createdAt`,
`updatedAt` and `completedAt`, so every other key of the TypeScript
`TestRun` interface may be absent from a stored record and is modelled as
an `Option`.  (`suiteId` is not in the `TestRun` interface at all, but the
create branch writes `suiteId: run.suiteId || ''`.) -/
structure TestRun where
  id : String
  name : String
  description : String
  projectId : Option String
  suiteIds : Option (List String)
  testCaseIds : Option (List String)
  suiteId : Option String
  executions : List TestExecution
  status : Option RunStatus
  assignedTo : Option (List String)
  createdAt : Time
  updatedAt : Time
  startedAt : Option Time
  completedAt : Option Time
  pausedAt : Option Time
  currentExecutionIndex : Option Nat
deriving DecidableEq, Repr

/-- The caller-supplied object of `saveTestRun(run: Partial&lt;TestRun&gt;)`. -/
structure TestRunInput where
  id : Option String := none
  name : Option String := none
  description : Option String := none
  projectId : Option String := none
  suiteIds : Option (List String) := none
  testCaseIds : Option (List String) := none
  suiteId : Option String := none
  executions : Option (List TestExecution) := none
  status : Option RunStatus := none
  assignedTo : Option (List String) := none
  createdAt : Option Time := none
  updatedAt : Option Time := none
  startedAt : Option Time := none
  completedAt : Option Time := none
  pausedAt : Option Time := none
  currentExecutionIndex : Option Nat := none
deriving DecidableEq, Repr

/-- `TestCaseHistory` from `src/types/index.ts` (`saveHistory` stores the
whole resulting test case in `changes`). -/
structure TestCaseHistory where
  id : String
  testCaseId : String
  version : Nat
  changes : TestCase
  changedAt : Time
  changeType : ChangeType
deriving DecidableEq, Repr

/-- `AuditLog` from `src/types/index.ts`; the free-form `details` map is
modelled as an association list. -/
structure AuditLog where
  id : String
  action : String
  entityType : EntityType
  entityId : String
  userId : String
  timestamp : Time
  details : List (String × String)
deriving DecidableEq, Repr

/-- `FilterOptions` from `src/types/index.ts`. -/
structure FilterOptions where
  status : Option (List TestCaseStatus) := none
  priority : Option (List Priority) := none
  tags : Option (List String) := none
  searchQuery : Option String := none
  suiteId : Option String := none
deriving DecidableEq, Repr

/-- `SortOptions.field` from `src/types/index.ts`. -/
inductive SortField
  | title | priority | status | createdAt | updatedAt
deriving DecidableEq, Repr

/-- `SortOptions.direction` from `src/types/index.ts`. -/
inductive SortDirection
  | asc | desc
deriving DecidableEq, Repr

/-- `SortOptions` from `src/types/index.ts`. -/
structure SortOptions where
  field : SortField
  direction : SortDirection
deriving DecidableEq, Repr

/-- `PaginationOptions` from `src/types/index.ts`. -/
structure PaginationOptions where
  page : Nat
  limit : Nat
deriving DecidableEq, Repr

/-! ### dataService: test cases (`saveTestCase`, `getTestCase`) -/

/-- `getTestCase(id)`: first record with the given id, or null. -/
def getTestCase (id : String) (tcs : List TestCase) : Option TestCase :=
  tcs.find? (fun tc => tc.id == id)

/-- The update branch of `saveTestCase`:
`{ ...existing, ...testCase, updatedAt: now, version: existing.version + 1 }`. -/
def mergeTestCase (ex : TestCase) (p : TestCaseInput) (now : Time) : TestCase :=
  { id := p.id.getD ex.id
    title := p.title.getD ex.title
    description := p.description.getD ex.description
    preconditions := p.preconditions.getD ex.preconditions
    steps := p.steps.getD ex.steps
    expectedResults := p.expectedResults.getD ex.expectedResults
    actualResult := p.actualResult.getD ex.actualResult
    priority := p.priority.getD ex.priority
    status := p.status.getD ex.status
    executionStatus := p.executionStatus.getD ex.executionStatus
    customStatus := oOr p.customStatus ex.customStatus
    tags := p.tags.getD ex.tags
    screenshots := p.screenshots.getD ex.screenshots
    createdAt := p.createdAt.getD ex.createdAt
    suiteId := oOr p.suiteId ex.suiteId
    updatedAt := now
    version := ex.version + 1 }

/-- The create branch of `saveTestCase`: defaults `x || fallback` for every
required field, `version: 1`, fresh id. -/
def createTestCase (p : TestCaseInput) (newId : String) (now : Time) : TestCase :=
  { id := newId
    title := p.title.getD ""
    description := p.description.getD ""
    preconditions := p.preconditions.getD ""
    steps := p.steps.getD []
    expectedResults := p.expectedResults.getD ""
    actualResult := p.actualResult.getD ""
    priority := p.priority.getD Priority.medium
    status := p.status.getD TestCaseStatus.draft
    executionStatus := p.executionStatus.getD ExecStatus.notRun
    customStatus := p.customStatus
    tags := p.tags.getD []
    screenshots := p.screenshots.getD []
    createdAt := now
    updatedAt := now
    version := 1
    suiteId := p.suiteId }

/-- `saveTestCase(testCase)`: if `testCase.id` is truthy and `findIndex`
matches, update in place; otherwise append a new record.  Returns the
saved record and the new collection.  The audit-log and history side
effects (`logAudit`, `saveHistory`) do not touch this collection and are
modelled separately (`logAuditAppend`). -/
def saveTestCase (p : TestCaseInput) (tcs : List TestCase) (newId : String)
    (now : Time) : TestCase × List TestCase :=
  match (if idTruthy p.id then tcs.find? (fun tc => tc.id == p.id.getD "") else none) with
  | some ex =>
    let updated := mergeTestCase ex p now
    (updated, replaceFirst (fun tc => tc.id == p.id.getD "") updated tcs)
  | none =>
    let newTestCase := createTestCase p newId now
    (newTestCase, tcs ++ [newTestCase])

/-! ### dataService: `searchTestCases` -/

/-- JavaScript `String.prototype.includes` (substring containment) for a
non-empty needle: `splitOn` yields more than one piece exactly when the
needle occurs. -/
def strContains (s q : String) : Bool :=
  (s.splitOn q).length > 1

/-- The free-text filter of `searchTestCases`: applied only when
`filters.searchQuery` is truthy (present and non-empty); matches
case-insensitively against title, description, any tag, or id. -/
def applySearchQuery (q : Option String) (tcs : List TestCase) : List TestCase :=
  match q with
  | some qs =>
    if qs.isEmpty then tcs
    else
      let query := qs.toLower
      tcs.filter (fun tc =>
        strContains tc.title.toLower query ||
        strContains tc.description.toLower query ||
        tc.tags.any (fun tag => strContains tag.toLower query) ||
        strContains tc.id.toLower query)
  | none => tcs

/-- Status filter: applied only when `filters.status?.length` is truthy. -/
def applyStatusFilter (f : Option (List TestCaseStatus)) (tcs : List TestCase) :
    List TestCase :=
  match f with
  | some l => if l.isEmpty then tcs else tcs.filter (fun tc => l.contains tc.status)
  | none => tcs

/-- Priority filter: applied only when `filters.priority?.length` is truthy. -/
def applyPriorityFilter (f : Option (List Priority)) (tcs : List TestCase) :
    List TestCase :=
  match f with
  | some l => if l.isEmpty then tcs else tcs.filter (fun tc => l.contains tc.priority)
  | none => tcs

/-- Tags filter: any selected tag present on the case. -/
def applyTagsFilter (f : Option (List String)) (tcs : List TestCase) :
    List TestCase :=
  match f with
  | some l =>
    if l.isEmpty then tcs
    else tcs.filter (fun tc => l.any (fun tag => tc.tags.contains tag))
  | none => tcs

/-- Suite filter: exact match, applied only when `filters.suiteId` is truthy. -/
def applySuiteFilter (f : Option String) (tcs : List TestCase) : List TestCase :=
  match f with
  | some s => if s.isEmpty then tcs else tcs.filter (fun tc => tc.suiteId == some s)
  | none => tcs

/-- The string value `a[sort.field]` lowercased, as the JS comparator sees
it.  `createdAt`/`updatedAt` are modelled as `Time` and rendered through a
canonical digit string whose lexicographic order matches numeric order, as
ISO-8601 strings of a fixed format do. -/
def sortValue (f : SortField) (tc : TestCase) : String :=
  match f with
  | SortField.title => tc.title.toLower
  | SortField.priority =>
    (match tc.priority with
     | Priority.low => "Low"
     | Priority.medium => "Medium"
     | Priority.high => "High").toLower
  | SortField.status =>
    (match tc.status with
     | TestCaseStatus.draft => "Draft"
     | TestCaseStatus.active => "Active"
     | TestCaseStatus.archived => "Archived").toLower
  | SortField.createdAt => String.mk (Nat.toDigits 10 tc.createdAt)
  | SortField.updatedAt => String.mk (Nat.toDigits 10 tc.updatedAt)

/-- The comparator orders `a` strictly before `b` (returns -1): for `asc`
when `aValue < bValue`, for `desc` when `bValue < aValue`.  Timestamp
fields are compared numerically (equivalent to the lexicographic order on
same-length ISO strings). -/
def sortPred (s : SortOptions) (a b : TestCase) : Bool :=
  match s.field, s.direction with
  | SortField.createdAt, SortDirection.asc => a.createdAt < b.createdAt
  | SortField.createdAt, SortDirection.desc => b.createdAt < a.createdAt
  | SortField.updatedAt, SortDirection.asc => a.updatedAt < b.updatedAt
  | SortField.updatedAt, SortDirection.desc => b.updatedAt < a.updatedAt
  | f, SortDirection.asc => decide (sortValue f a < sortValue f b)
  | f, SortDirection.desc => decide (sortValue f b < sortValue f a)

/-- Stable insertion used to model `Array.prototype.sort` with the
source's comparator (stable in the host engines): a new element passes
elements it must strictly precede and stops before the first element it
does not. -/
def insertSorted {α : Type} (lt : α → α → Bool) (x : α) : List α → List α
  | [] => [x]
  | y :: ys => if lt x y then x :: y :: ys else y :: insertSorted lt x ys

/-- Stable sort by the comparator-induced strict order. -/
def sortStable {α : Type} (lt : α → α → Bool) (l : List α) : List α :=
  l.foldr (insertSorted lt) []

/-- The result record of `searchTestCases`. -/
structure SearchResult where
  testCases : List TestCase
  total : Nat
  totalPages : Nat
deriving DecidableEq, Repr

/-- `searchTestCases(filters, sort, pagination)`: AND-composed filters,
single-field sort, then slice.  `totalPages = Math.ceil(total / limit)`
(for `limit ≥ 1` the natural-number ceiling division `(total + limit - 1)
/ limit`), and `slice(startIndex, startIndex + limit)` is drop/take. -/
def searchTestCases (tcs : List TestCase) (filters : FilterOptions)
    (sort : SortOptions) (pagination : PaginationOptions) : SearchResult :=
  let f1 := applySearchQuery filters.searchQuery tcs
  let f2 := applyStatusFilter filters.status f1
  let f3 := applyPriorityFilter filters.priority f2
  let f4 := applyTagsFilter filters.tags f3
  let f5 := applySuiteFilter filters.suiteId f4
  let sorted := sortStable (sortPred sort) f5
  let total := sorted.length
  let totalPages := (total + pagination.limit - 1) / pagination.limit
  let startIndex := (pagination.page - 1) * pagination.limit
  { testCases := (sorted.drop startIndex).take pagination.limit
    total := total
    totalPages := totalPages }

/-! ### dataService: audit log (`logAudit`), test runs (`saveTestRun`),
data import (`importData`) and metrics (`getMetrics`) -/

/-- The entry `logAudit` constructs (`userId: 'current-user'`, empty
details unless supplied). -/
def mkAuditLog (newId : String) (action : String) (entityType : EntityType)
    (entityId : String) (now : Time) : AuditLog :=
  { id := newId
    action := action
    entityType := entityType
    entityId := entityId
    userId := "current-user"
    timestamp := now
    details := [] }

/-- The collection effect of `logAudit`: push the entry, then
`if (logs.length > 1000) logs.splice(0, logs.length - 1000)` — drop the
oldest entries so that at most the last 1000 remain. -/
def logAuditAppend (logs : List AuditLog) (entry : AuditLog) : List AuditLog :=
  let pushed := logs ++ [entry]
  if pushed.length > 1000 then pushed.drop (pushed.length - 1000) else pushed

/-- The update branch of `saveTestRun`: `{ ...runs[index], ...run,
updatedAt: now }`. -/
def mergeTestRun (ex : TestRun) (p : TestRunInput) (now : Time) : TestRun :=
  { id := p.id.getD ex.id
    name := p.name.getD ex.name
    description := p.description.getD ex.description
    projectId := oOr p.projectId ex.projectId
    suiteIds := oOr p.suiteIds ex.suiteIds
    testCaseIds := oOr p.testCaseIds ex.testCaseIds
    suiteId := oOr p.suiteId ex.suiteId
    executions := p.executions.getD ex.executions
    status := oOr p.status ex.status
    assignedTo := oOr p.assignedTo ex.assignedTo
    createdAt := p.createdAt.getD ex.createdAt
    updatedAt := now
    startedAt := oOr p.startedAt ex.startedAt
    completedAt := oOr p.completedAt ex.completedAt
    pausedAt := oOr p.pausedAt ex.pausedAt
    currentExecutionIndex := oOr p.currentExecutionIndex ex.currentExecutionIndex }

/-- The create branch of `saveTestRun`: the literal writes only `id`,
`name`, `description`, `suiteId`, `executions`, `createdAt`, `updatedAt`
and `completedAt`; every other caller-supplied field is dropped. -/
def createTestRun (p : TestRunInput) (newId : String) (now : Time) : TestRun :=
  { id := newId
    name := p.name.getD ""
    description := p.description.getD ""
    projectId := none
    suiteIds := none
    testCaseIds := none
    suiteId := some (p.suiteId.getD "")
    executions := p.executions.getD []
    status := none
    assignedTo := none
    createdAt := now
    updatedAt := now
    startedAt := none
    completedAt := p.completedAt
    pausedAt := none
    currentExecutionIndex := none }

/-- `saveTestRun(run)`: update in place when `run.id` is truthy and
matched, otherwise append the freshly created record. -/
def saveTestRun (p : TestRunInput) (runs : List TestRun) (newId : String)
    (now : Time) : TestRun × List TestRun :=
  match (if idTruthy p.id then runs.find? (fun r => r.id == p.id.getD "") else none) with
  | some ex =>
    let updated := mergeTestRun ex p now
    (updated, replaceFirst (fun r => r.id == p.id.getD "") updated runs)
  | none =>
    let newRun := createTestRun p newId now
    (newRun, runs ++ [newRun])

/-- The whole persisted state: one collection per storage key. -/
structure Store where
  testCases : List TestCase
  testSuites : List TestSuite
  testRuns : List TestRun
  executions : List TestExecution
  history : List TestCaseHistory
  auditLogs : List AuditLog
deriving DecidableEq, Repr

/-- The parsed shape of an import snapshot: each collection key may be
absent (`if (data.testCases) ...` skips absent or non-truthy keys). -/
structure Snapshot where
  testCases : Option (List TestCase) := none
  testSuites : Option (List TestSuite) := none
  testRuns : Option (List TestRun) := none
  executions : Option (List TestExecution) := none
  history : Option (List TestCaseHistory) := none
  auditLogs : Option (List AuditLog) := none
deriving DecidableEq, Repr

/-- `importData(jsonData)`: `JSON.parse` failure (modelled as `none`) is
caught and returns `false` with nothing written.  Otherwise each present
collection overwrites the stored one, the absent ones are left alone, and
finally `logAudit('Imported data', 'TestCase', 'bulk-import')` appends one
entry to the (possibly just overwritten) audit-log collection; returns
`true`. -/
def importData (parsed : Option Snapshot) (st : Store) (newId : String)
    (now : Time) : Bool × Store :=
  match parsed with
  | none => (false, st)
  | some d =>
    let st1 : Store :=
      { testCases := d.testCases.getD st.testCases
        testSuites := d.testSuites.getD st.testSuites
        testRuns := d.testRuns.getD st.testRuns
        executions := d.executions.getD st.executions
        history := d.history.getD st.history
        auditLogs := d.auditLogs.getD st.auditLogs }
    let entry := mkAuditLog newId "Imported data" EntityType.testCase "bulk-import" now
    (true, { st1 with auditLogs := logAuditAppend st1.auditLogs entry })

/-- `(executionCounts[s] || 0)` of `getMetrics`: the number of recorded
executions with the given status. -/
def countStatus (s : ExecStatus) (execs : List TestExecution) : Nat :=
  (execs.filter (fun e => e.status == s)).length

/-- The `executionMetrics` object of `getMetrics`; the JavaScript
floating-point percentages are modelled exactly as rationals. -/
structure ExecutionMetrics where
  totalExecutions : Nat
  passRate : ℚ
  failRate : ℚ
  skipRate : ℚ
  blockRate : ℚ
deriving DecidableEq, Repr

/-- The execution-metric part of `getMetrics`: each rate is
`count / totalExecutions * 100` when `totalExecutions > 0`, else `0`. -/
def getExecutionMetrics (execs : List TestExecution) : ExecutionMetrics :=
  let total := execs.length
  { totalExecutions := total
    passRate := if total > 0 then (countStatus ExecStatus.pass execs : ℚ) / total * 100 else 0
    failRate := if total > 0 then (countStatus ExecStatus.fail execs : ℚ) / total * 100 else 0
    skipRate := if total > 0 then (countStatus ExecStatus.skipped execs : ℚ) / total * 100 else 0
    blockRate := if total > 0 then (countStatus ExecStatus.blocked execs : ℚ) / total * 100 else 0 }

/-! ### TestRunExecutor: the test-run execution engine

The component keeps local state (`currentIndex`, `isRunning`,
`executionStartTime`) beside the run it mutates; every transition persists
the updated run via `saveTestRun`, whose update branch replaces the stored
record and stamps `updatedAt = now`.  The parallel
`dataService.saveTestExecution` call of `executeTestCase` writes to the
separate global executions collection and is not needed by the run-level
claims. -/

/-- The executor component's state: the run it renders plus the React
state hooks `currentIndex`, `isRunning` and `executionStartTime`. -/
structure ExecutorState where
  run : TestRun
  currentIndex : Nat
  isRunning : Bool
  executionStartTime : Option Time
deriving DecidableEq, Repr

/-- Mounting the executor: `useState(testRun.currentExecutionIndex || 0)`,
`useState(testRun.status === 'In Progress')`, start time null. -/
def initExecutor (run : TestRun) : ExecutorState :=
  { run := run
    currentIndex := run.currentExecutionIndex.getD 0
    isRunning := run.status == some RunStatus.inProgress
    executionStartTime := none }

/-- `startExecution`: set running, record the execution start time, and
persist `{ ...testRun, status: 'In Progress', startedAt: new
Date().toISOString(), currentExecutionIndex: currentIndex }`. -/
def startExecution (now : Time) (s : ExecutorState) : ExecutorState :=
  { s with
    isRunning := true
    executionStartTime := some now
    run := { s.run with
             status := some RunStatus.inProgress
             startedAt := some now
             currentExecutionIndex := some s.currentIndex
             updatedAt := now } }

/-- `pauseExecution`: stop running and persist `{ ...testRun, status:
'Paused', pausedAt: now, currentExecutionIndex: currentIndex }`. -/
def pauseExecution (now : Time) (s : ExecutorState) : ExecutorState :=
  { s with
    isRunning := false
    run := { s.run with
             status := some RunStatus.paused
             pausedAt := some now
             currentExecutionIndex := some s.currentIndex
             updatedAt := now } }

/-- `stopExecution`: stop running and persist `{ ...testRun, status:
'Cancelled', currentExecutionIndex: currentIndex }`. -/
def stopExecution (now : Time) (s : ExecutorState) : ExecutorState :=
  { s with
    isRunning := false
    run := { s.run with
             status := some RunStatus.cancelled
             currentExecutionIndex := some s.currentIndex
             updatedAt := now } }

/-- The caller-side payload of one `executeTestCase` call: the clock value
and the component's outcome inputs (status button, actual-result and
comments text, per-step results). -/
structure ExecOutcome where
  now : Time
  status : ExecStatus
  actualResult : String
  comments : String
  stepResults : List TestStepResult
deriving DecidableEq, Repr

/-- `executeTestCase(status)`: guarded by `if (!currentExecution ||
!executionStartTime) return;` — `currentExecution` is the execution at
`currentIndex` (null when out of bounds) and `executionStartTime` is the
locally recorded start time; the run's status is NOT checked.  On the
guarded path it writes the outcome into the execution at `currentIndex`,
computes `duration = Math.floor((now - executionStartTime) / 1000)`, and
persists the run with `status = isLastCase ? 'Completed' : 'In Progress'`,
`currentExecutionIndex` advanced unless last, and `completedAt` set only
on the last case (`undefined`, i.e. absent, otherwise). -/
def executeTestCase (o : ExecOutcome) (s : ExecutorState) : ExecutorState :=
  match s.run.executions[s.currentIndex]?, s.executionStartTime with
  | some cur, some startTime =>
    let duration := (o.now - startTime) / 1000
    let updatedExec : TestExecution :=
      { cur with
        status := o.status
        actualResult := some o.actualResult
        comments := o.comments
        stepResults := some o.stepResults
        executedAt := o.now
        duration := some duration
        executedBy := "Current User" }
    let updatedExecutions := s.run.executions.set s.currentIndex updatedExec
    let isLast : Bool := s.currentIndex == s.run.executions.length - 1
    let newRun : TestRun :=
      { s.run with
        executions := updatedExecutions
        status := some (if isLast then RunStatus.completed else RunStatus.inProgress)
        currentExecutionIndex := some (if isLast then s.currentIndex else s.currentIndex + 1)
        completedAt := if isLast then some o.now else none
        updatedAt := o.now }
    if isLast then
      { s with run := newRun, isRunning := false }
    else
      { s with
        run := newRun
        currentIndex := s.currentIndex + 1
        executionStartTime := some o.now }
  | _, _ => s

/-- A sequence of `executeTestCase` calls. -/
def recordMany (os : List ExecOutcome) (s : ExecutorState) : ExecutorState :=
  os.foldl (fun st o => executeTestCase o st) s

/-! ### `handleRerunFailed` (EnhancedTestRunsList) -/

/-- `handleRerunFailed(run)`: when no execution has status `Fail`, only an
informational toast is shown and nothing is saved (modelled `none`);
otherwise every Fail execution is reset to `Not Executed` with cleared
comments and actual result, the run is reset to `Not Started` at index 0,
and the result is persisted through `saveTestRun` (which stamps
`updatedAt = now`). -/
def handleRerunFailed (run : TestRun) (now : Time) : Option TestRun :=
  let failedExecutions := run.executions.filter (fun e => e.status == ExecStatus.fail)
  if failedExecutions.length == 0 then
    none
  else
    let updatedExecutions := run.executions.map (fun e =>
      if e.status == ExecStatus.fail then
        { e with
          status := ExecStatus.notExecuted
          comments := ""
          actualResult := some "" }
      else e)
    some { run with
           executions := updatedExecutions
           status := some RunStatus.notStarted
           currentExecutionIndex := some 0
           updatedAt := now }

/-! ### Concrete sample data used by witnesses and counterexamples -/

/-- A blank, not-yet-executed execution as `EnhancedTestRunForm` creates
them (`id: ''`, empty fields). -/
def execBlank : TestExecution :=
  { id := ""
    testCaseId := "tc-1"
    status := ExecStatus.notExecuted
    comments := ""
    actualResult := none
    attachments := []
    executedAt := 0
    executedBy := ""
    runId := ""
    startedAt := none
    duration := none
    stepResults := none }

/-- An execution recorded as failed. -/
def execFailed : TestExecution :=
  { execBlank with status := ExecStatus.fail, comments := "broke", actualResult := some "boom" }

/-- An execution recorded as passed. -/
def execPassed : TestExecution :=
  { execBlank with status := ExecStatus.pass }

/-- A not-started run with two pending executions. -/
def runNotStarted2 : TestRun :=
  { id := "run-1"
    name := "nightly"
    description := ""
    projectId := none
    suiteIds := none
    testCaseIds := none
    suiteId := some ""
    executions := [execBlank, { execBlank with testCaseId := "tc-2" }]
    status := some RunStatus.notStarted
    assignedTo := none
    createdAt := 0
    updatedAt := 0
    startedAt := none
    completedAt := none
    pausedAt := none
    currentExecutionIndex := some 0 }

/-- A paused run that already carries a recorded `startedAt`. -/
def runPausedWithStart : TestRun :=
  { runNotStarted2 with
    id := "run-2"
    status := some RunStatus.paused
    startedAt := some 5
    pausedAt := some 6 }

/-- A run containing one failed and one passed execution. -/
def runWithFailure : TestRun :=
  { runNotStarted2 with
    id := "run-3"
    executions := [execFailed, execPassed]
    status := some RunStatus.completed
    completedAt := some 9
    currentExecutionIndex := some 1 }

/-- A stored test case with id `"a"` at version 1. -/
def tcA : TestCase :=
  { id := "a"
    title := "Login works"
    description := "Valid login"
    preconditions := ""
    steps := []
    expectedResults := "dashboard shown"
    actualResult := ""
    priority := Priority.high
    status := TestCaseStatus.draft
    executionStatus := ExecStatus.notRun
    customStatus := none
    tags := ["auth"]
    screenshots := []
    createdAt := 0
    updatedAt := 0
    version := 1
    suiteId := none }

/-- An update object with no fields set. -/
def emptyTCInput : TestCaseInput := {}

/-- The create payload `EnhancedTestRunForm` submits: it explicitly sets
`status: 'Not Started'`, `currentExecutionIndex: 0`, suite and test-case
ids, and assignees. -/
def formRunInput : TestRunInput :=
  { name := some "regression"
    description := some ""
    projectId := some "project-1"
    suiteIds := some ["s1"]
    testCaseIds := some ["tc-1"]
    executions := some [execBlank]
    status := some RunStatus.notStarted
    assignedTo := some ["alice"]
    currentExecutionIndex := some 0 }

/-- An empty store. -/
def emptyStore : Store :=
  { testCases := []
    testSuites := []
    testRuns := []
    executions := []
    history := []
    auditLogs := [] }

/-- A snapshot with every collection key absent (parses fine: `{}`). -/
def emptySnapshot : Snapshot := {}

/-- A `Pass` outcome payload at time 300. -/
def outcomePass : ExecOutcome :=
  { now := 300, status := ExecStatus.pass, actualResult := "ok", comments := "", stepResults := [] }

/-- A `Fail` outcome payload at time 400. -/
def outcomeFail : ExecOutcome :=
  { now := 400, status := ExecStatus.fail, actualResult := "nope", comments := "bug", stepResults := [] }

/-- Invariant of the executor mid-run: the run is In Progress with the
cursor, the persisted index, a recorded start time, `n` executions and no
completion timestamp.  Established by `start` and preserved by every
non-final `executeTestCase`. -/
def StepInv (n k : Nat) (s : ExecutorState) : Prop :=
  s.run.status = some RunStatus.inProgress ∧
  s.currentIndex = k ∧
  s.run.currentExecutionIndex = some k ∧
  s.executionStartTime.isSome ∧
  s.run.executions.length = n ∧
  s.run.completedAt = none

/-- A sequence of in-place updates through `saveTestCase`, each step
addressing the record with id `i` at its own write time (the fresh-id
argument is irrelevant on the update path). -/
def applyUpdates (i : String) (steps : List (TestCaseInput × Time))
    (tcs : List TestCase) : List TestCase :=
  steps.foldl (fun acc s => (saveTestCase { s.1 with id := some i } acc "" s.2).2) tcs

/-! ### Helper lemmas -/

/-- One `logAudit` call leaves at most 1000 entries. -/
theorem logAuditAppend_length_le (logs : List AuditLog) (entry : AuditLog) :
    (logAuditAppend logs entry).length ≤ 1000 := by
  unfold logAuditAppend
  by_cases h : (logs ++ [entry]).length > 1000
  · rw [if_pos h, List.length_drop]
    omega
  · rw [if_neg h]
    omega

/-- `find?` after replacing the first match finds the replacement, when a
match existed and the replacement itself matches. -/
theorem find?_replaceFirst {α : Type} (q : α → Bool) (v : α) (l : List α)
    (hl : (l.find? q).isSome) (hv : q v = true) :
    (replaceFirst q v l).find? q = some v := by
  induction l with
  | nil => simp [List.find?] at hl
  | cons x xs ih =>
    by_cases hx : q x = true
    · rw [replaceFirst, if_pos hx]
      exact List.find?_cons_of_pos _ hv
    · rw [replaceFirst, if_neg hx]
      rw [List.find?_cons_of_neg _ hx]
      rw [List.find?_cons_of_neg _ hx] at hl
      exact ih hl

/-- One in-place update through `saveTestCase` addressed at id `i`:
the stored record becomes the merge, whose version is the old one plus 1
and whose `updatedAt` is the write time. -/
theorem saveTestCase_update_step (i : String) (hi : i ≠ "")
    (tcs : List TestCase) (cur : TestCase)
    (hfind : getTestCase i tcs = some cur)
    (p : TestCaseInput) (newId : String) (now : Time) :
    getTestCase i (saveTestCase { p with id := some i } tcs newId now).2 =
      some (mergeTestCase cur { p with id := some i } now) ∧
    (mergeTestCase cur { p with id := some i } now).version = cur.version + 1 ∧
    (mergeTestCase cur { p with id := some i } now).updatedAt = now := by
  have htruthy : idTruthy (some i) = true := by
    have hemp : i.isEmpty = false := by
      cases h : i.isEmpty
      · rfl
      · exact absurd ((String.isEmpty_iff i).mp h) hi
    simp [idTruthy, hemp]
  have hpred : (fun tc : TestCase => tc.id == (some i).getD "") =
      (fun tc : TestCase => tc.id == i) := rfl
  refine ⟨?_, rfl, rfl⟩
  unfold saveTestCase
  rw [if_pos htruthy, hpred]
  unfold getTestCase at hfind
  rw [hfind]
  unfold getTestCase
  refine find?_replaceFirst _ _ _ ?_ ?_
  · rw [hfind]; rfl
  · show ((mergeTestCase cur { p with id := some i } now).id == i) = true
    have : (mergeTestCase cur { p with id := some i } now).id = i := rfl
    rw [this]
    exact beq_self_eq_true i

/-- Versions accumulate across a sequence of in-place updates. -/
theorem applyUpdates_version (i : String) (hi : i ≠ "") :
    ∀ (steps : List (TestCaseInput × Time)) (tcs : List TestCase) (cur : TestCase),
      getTestCase i tcs = some cur →
      ∃ tc', getTestCase i (applyUpdates i steps tcs) = some tc' ∧
        tc'.version = cur.version + steps.length := by
  intro steps
  induction steps with
  | nil =>
    intro tcs cur h
    exact ⟨cur, by simpa [applyUpdates] using h, by simp⟩
  | cons s ss ih =>
    intro tcs cur h
    have hstep := saveTestCase_update_step i hi tcs cur h s.1 "" s.2
    have hrw : applyUpdates i (s :: ss) tcs =
        applyUpdates i ss (saveTestCase { s.1 with id := some i } tcs "" s.2).2 := rfl
    rw [hrw]
    obtain ⟨tc', h1, h2⟩ := ih _ _ hstep.1
    refine ⟨tc', h1, ?_⟩
    rw [h2, hstep.2.1, List.length_cons]
    omega

/-- When every execution carries one of the four recordable statuses, the
four per-status counts partition the collection. -/
theorem countStatus_four_eq_length (execs : List TestExecution)
    (h : ∀ e ∈ execs, e.status = ExecStatus.pass ∨ e.status = ExecStatus.fail ∨
         e.status = ExecStatus.skipped ∨ e.status = ExecStatus.blocked) :
    countStatus ExecStatus.pass execs + countStatus ExecStatus.fail execs +
      countStatus ExecStatus.skipped execs + countStatus ExecStatus.blocked execs =
      execs.length := by
  induction execs with
  | nil => rfl
  | cons e es ih =>
    have he := h e (List.mem_cons_self _ _)
    have ih' := ih (fun x hx => h x (List.mem_cons_of_mem _ hx))
    unfold countStatus at ih' ⊢
    rcases he with h1 | h1 | h1 | h1 <;>
      simp [List.filter_cons, h1] <;> omega

/-- `start` on a freshly mounted executor over a run pointing at index 0
establishes the mid-run invariant. -/
theorem startExecution_inv (run : TestRun) (t0 : Time) (n : Nat)
    (hidx : run.currentExecutionIndex = some 0)
    (hlen : run.executions.length = n)
    (hcomp : run.completedAt = none) :
    StepInv n 0 (startExecution t0 (initExecutor run)) := by
  refine ⟨rfl, ?_, ?_, rfl, hlen, hcomp⟩
  · show run.currentExecutionIndex.getD 0 = 0
    rw [hidx]; rfl
  · show some (run.currentExecutionIndex.getD 0) = some 0
    rw [hidx]; rfl

/-- A non-final `executeTestCase` preserves the mid-run invariant and
advances the cursor and the persisted index together. -/
theorem executeTestCase_mid (o : ExecOutcome) (s : ExecutorState) (n k : Nat)
    (hInv : StepInv n k s) (hlt : k + 1 < n) :
    StepInv n (k + 1) (executeTestCase o s) := by
  obtain ⟨h1, h2, h3, h4, h5, h6⟩ := hInv
  obtain ⟨t, ht⟩ := Option.isSome_iff_exists.mp h4
  have hk : s.currentIndex < s.run.executions.length := by omega
  obtain ⟨e, he⟩ : ∃ e, s.run.executions[s.currentIndex]? = some e :=
    ⟨_, List.getElem?_eq_getElem hk⟩
  have hb : (s.currentIndex == s.run.executions.length - 1) = false :=
    beq_eq_false_iff_ne.mpr (by omega)
  unfold executeTestCase
  rw [he, ht]
  simp only [hb, Bool.false_eq_true, if_false]
  refine ⟨rfl, ?_, ?_, rfl, ?_, rfl⟩
  · show s.currentIndex + 1 = k + 1
    omega
  · exact congrArg (fun x => some (x + 1)) h2
  · show (s.run.executions.set s.currentIndex _).length = n
    rw [List.length_set]
    exact h5

/-- The final `executeTestCase` completes the run and stamps
`completedAt`. -/
theorem executeTestCase_last (o : ExecOutcome) (s : ExecutorState) (n : Nat)
    (hInv : StepInv n (n - 1) s) (hn : 1 ≤ n) :
    (executeTestCase o s).run.status = some RunStatus.completed ∧
    (executeTestCase o s).run.completedAt = some o.now ∧
    (executeTestCase o s).run.currentExecutionIndex = some (n - 1) ∧
    (executeTestCase o s).isRunning = false := by
  obtain ⟨h1, h2, h3, h4, h5, h6⟩ := hInv
  obtain ⟨t, ht⟩ := Option.isSome_iff_exists.mp h4
  have hk : s.currentIndex < s.run.executions.length := by omega
  obtain ⟨e, he⟩ : ∃ e, s.run.executions[s.currentIndex]? = some e :=
    ⟨_, List.getElem?_eq_getElem hk⟩
  have hb : (s.currentIndex == s.run.executions.length - 1) = true := by
    rw [beq_iff_eq]; omega
  unfold executeTestCase
  rw [he, ht]
  simp only [hb, if_true]
  refine ⟨trivial, trivial, ?_, trivial⟩
  exact congrArg some h2

/-- Recording a sequence of outcomes that stops short of the final
execution keeps the mid-run invariant, moving the index by one per
outcome. -/
theorem recordMany_mid (os : List ExecOutcome) :
    ∀ (s : ExecutorState) (n k : Nat), StepInv n k s → k + os.length < n →
      StepInv n (k + os.length) (recordMany os s) := by
  induction os with
  | nil =>
    intro s n k h _
    simpa [recordMany] using h
  | cons o os ih =>
    intro s n k h hlt
    rw [List.length_cons] at hlt
    have hmid := executeTestCase_mid o s n k h (by omega)
    have hrec := ih (executeTestCase o s) n (k + 1) hmid (by omega)
    have harith : k + 1 + os.length = k + (os.length + 1) := by omega
    rw [harith] at hrec
    simpa [recordMany, List.foldl_cons] using hrec

/-! ### Claim theorems -/

/-- C8: the audit-log collection never exceeds 1000 entries after any
sequence of `logAudit` operations; each append keeps exactly the most
recent `min (previous + 1) 1000` entries, dropping the oldest first
(the result is the length-capped suffix of the pushed list). -/
theorem auditLog_capped_fifo :
    (∀ (logs : List AuditLog) (entry : AuditLog),
      (logAuditAppend logs entry).length = min (logs.length + 1) 1000 ∧
      logAuditAppend logs entry = (logs ++ [entry]).drop (logs.length + 1 - 1000)) ∧
    (∀ (start : List AuditLog) (entries : List AuditLog),
      start.length ≤ 1000 →
      (entries.foldl logAuditAppend start).length ≤ 1000) := by
  constructor
  · intro logs entry
    have hlen : (logs ++ [entry]).length = logs.length + 1 := by
      rw [List.length_append, List.length_singleton]
    unfold logAuditAppend
    by_cases h : (logs ++ [entry]).length > 1000
    · rw [if_pos h]
      constructor
      · rw [List.length_drop]
        omega
      · rw [hlen]
    · rw [if_neg h]
      constructor
      · rw [hlen]
        rw [hlen] at h
        omega
      · have hz : logs.length + 1 - 1000 = 0 := by
          rw [hlen] at h
          omega
        rw [hz, List.drop_zero]
  · intro start entries
    induction entries generalizing start with
    | nil => intro h; simpa using h
    | cons e es ih =>
      intro _
      rw [List.foldl_cons]
      exact ih (logAuditAppend start e) (logAuditAppend_length_le start e)

/-- C8 witness: one append to a one-entry log keeps both entries; a
nonempty sequence of appends stays within the cap. -/
theorem auditLog_capped_fifo_witness :
    ((([mkAuditLog "a0" "Created test case" EntityType.testCase "x" 1] :
        List AuditLog).foldl logAuditAppend []).length ≤ 1000) ∧
    (logAuditAppend [] (mkAuditLog "a0" "Created test case" EntityType.testCase "x" 1)).length =
      min 1 1000 := by
  constructor
  · exact auditLog_capped_fifo.2 [] _ (by decide)
  · exact (auditLog_capped_fifo.1 [] _).1

/-- C2 counterexample: `startExecution` on a Paused run that already has
`startedAt = 5` overwrites it with the resume time 7, so a resume does not
leave the original `startedAt` unchanged as claimed. -/
theorem start_overwrites_startedAt_cex :
    runPausedWithStart.status = some RunStatus.paused ∧
    runPausedWithStart.startedAt = some 5 ∧
    (startExecution 7 (initExecutor runPausedWithStart)).run.startedAt = some 7 ∧
    (startExecution 7 (initExecutor runPausedWithStart)).run.startedAt ≠
      runPausedWithStart.startedAt := by
  refine ⟨rfl, rfl, rfl, ?_⟩
  decide

/-- C2 (amended): `start` sets the run's status to In Progress and keeps
the execution cursor (which a fresh mount takes from the run's stored
`currentExecutionIndex`), but it always records `startedAt = now`,
overwriting any previously recorded value — also on a resume after
`pause`. -/
theorem start_transition_amended (s : ExecutorState) (t1 t2 : Time) (run : TestRun) :
    (startExecution t2 s).run.status = some RunStatus.inProgress ∧
    (startExecution t2 s).run.startedAt = some t2 ∧
    (startExecution t2 s).run.currentExecutionIndex = some s.currentIndex ∧
    (startExecution t2 s).currentIndex = s.currentIndex ∧
    (startExecution t2 (pauseExecution t1 s)).run.startedAt = some t2 ∧
    (startExecution t2 (pauseExecution t1 s)).run.currentExecutionIndex =
      some s.currentIndex ∧
    (initExecutor run).currentIndex = run.currentExecutionIndex.getD 0 := by
  exact ⟨rfl, rfl, rfl, rfl, rfl, rfl, rfl⟩

/-- C3 counterexample: on an empty collection `searchTestCases` returns
`totalPages = 0`, not the claimed `max(1, ceil(total/limit)) = 1`. -/
theorem searchTestCases_totalPages_zero_cex :
    (searchTestCases [] {} ⟨SortField.createdAt, SortDirection.desc⟩ ⟨1, 10⟩).total = 0 ∧
    (searchTestCases [] {} ⟨SortField.createdAt, SortDirection.desc⟩ ⟨1, 10⟩).totalPages = 0 ∧
    max 1 (((searchTestCases [] {} ⟨SortField.createdAt, SortDirection.desc⟩ ⟨1, 10⟩).total
      + 10 - 1) / 10) = 1 := by
  exact ⟨rfl, rfl, rfl⟩

/-- C3 (amended): for every limit ≥ 1, `searchTestCases` returns
`totalPages = ceil(total/limit)` with no minimum clamp: the value is the
exact ceiling (characterised by the two inequalities) for a nonempty
filtered set, and 0 — not 1 — when the filtered set is empty. -/
theorem searchTestCases_totalPages_ceil (tcs : List TestCase)
    (filters : FilterOptions) (sort : SortOptions) (pag : PaginationOptions)
    (r : SearchResult) (hlim : 1 ≤ pag.limit)
    (hr : searchTestCases tcs filters sort pag = r) :
    r.totalPages = (r.total + pag.limit - 1) / pag.limit ∧
    (r.total = 0 → r.totalPages = 0) ∧
    (0 < r.total →
      r.total ≤ r.totalPages * pag.limit ∧
      (r.totalPages - 1) * pag.limit < r.total) := by
  subst hr
  refine ⟨rfl, ?_, ?_⟩
  · intro h0
    show ((searchTestCases tcs filters sort pag).total + pag.limit - 1) / pag.limit = 0
    rw [h0]
    exact Nat.div_eq_of_lt (by omega)
  · intro hpos
    have h1 : ((searchTestCases tcs filters sort pag).total + pag.limit - 1) / pag.limit
        * pag.limit ≤ (searchTestCases tcs filters sort pag).total + pag.limit - 1 :=
      Nat.div_mul_le_self _ _
    have h2 : (searchTestCases tcs filters sort pag).total + pag.limit - 1 <
        (((searchTestCases tcs filters sort pag).total + pag.limit - 1) / pag.limit + 1)
        * pag.limit :=
      (Nat.div_lt_iff_lt_mul (by omega)).mp (Nat.lt_succ_self _)
    rw [Nat.succ_mul] at h2
    constructor
    · show (searchTestCases tcs filters sort pag).total ≤
        ((searchTestCases tcs filters sort pag).total + pag.limit - 1) / pag.limit * pag.limit
      omega
    · show (((searchTestCases tcs filters sort pag).total + pag.limit - 1) / pag.limit - 1)
        * pag.limit < (searchTestCases tcs filters sort pag).total
      rw [Nat.sub_mul, Nat.one_mul]
      omega

/-- C3 witness: the amended statement on an empty collection with limit
10. -/
theorem searchTestCases_totalPages_ceil_witness :
    (searchTestCases [] {} ⟨SortField.createdAt, SortDirection.desc⟩ ⟨1, 10⟩).totalPages =
      ((searchTestCases [] {} ⟨SortField.createdAt, SortDirection.desc⟩ ⟨1, 10⟩).total
        + 10 - 1) / 10 ∧
    (searchTestCases [] {} ⟨SortField.createdAt, SortDirection.desc⟩ ⟨1, 10⟩).totalPages = 0 := by
  have h := searchTestCases_totalPages_ceil []
    {} ⟨SortField.createdAt, SortDirection.desc⟩ ⟨1, 10⟩ _ (by decide) rfl
  exact ⟨h.1, h.2.1 rfl⟩


/-- C10: when `saveTestRun`'s id lookup falls through to the create
branch, the stored and returned record carries exactly a generated id,
`name`, `description`, `suiteId`, `executions`, `createdAt`, `updatedAt`
and `completedAt`; every caller-supplied `status`,
`currentExecutionIndex`, `suiteIds`, `testCaseIds`, `projectId` and
`assignedTo` is dropped (absent from the new record), and the record is
appended to the collection. -/
theorem saveTestRun_create_drops_fields (p : TestRunInput) (runs : List TestRun)
    (newId : String) (now : Time) (r : TestRun) (rs : List TestRun)
    (hnew : (if idTruthy p.id then runs.find? (fun t => t.id == p.id.getD "") else none) = none)
    (h : saveTestRun p runs newId now = (r, rs)) :
    r.id = newId ∧ r.name = p.name.getD "" ∧ r.description = p.description.getD "" ∧
    r.suiteId = some (p.suiteId.getD "") ∧ r.executions = p.executions.getD [] ∧
    r.createdAt = now ∧ r.updatedAt = now ∧ r.completedAt = p.completedAt ∧
    r.status = none ∧ r.currentExecutionIndex = none ∧ r.suiteIds = none ∧
    r.testCaseIds = none ∧ r.projectId = none ∧ r.assignedTo = none ∧
    r.startedAt = none ∧ r.pausedAt = none ∧ rs = runs ++ [r] := by
  unfold saveTestRun at h
  rw [hnew] at h
  injection h with h1 h2
  subst h1
  subst h2
  exact ⟨rfl, rfl, rfl, rfl, rfl, rfl, rfl, rfl, rfl, rfl, rfl, rfl, rfl, rfl, rfl, rfl, rfl⟩

/-- C10 witness: the form's create payload explicitly carries
`status: 'Not Started'`, `currentExecutionIndex: 0` and assignees, yet
the stored record has none of them. -/
theorem saveTestRun_create_drops_fields_witness :
    formRunInput.status = some RunStatus.notStarted ∧
    formRunInput.currentExecutionIndex = some 0 ∧
    (saveTestRun formRunInput [] "new-id" 3).1.status = none ∧
    (saveTestRun formRunInput [] "new-id" 3).1.currentExecutionIndex = none ∧
    (saveTestRun formRunInput [] "new-id" 3).1.assignedTo = none ∧
    (saveTestRun formRunInput [] "new-id" 3).1.id = "new-id" := by
  have h := saveTestRun_create_drops_fields formRunInput [] "new-id" 3
    (saveTestRun formRunInput [] "new-id" 3).1
    (saveTestRun formRunInput [] "new-id" 3).2 rfl rfl
  exact ⟨rfl, rfl, h.2.2.2.2.2.2.2.2.1, h.2.2.2.2.2.2.2.2.2.1,
    h.2.2.2.2.2.2.2.2.2.2.2.2.2.1, h.1⟩

/-- C5: `rerunFailed` with zero Fail executions saves nothing and only
signals "nothing to rerun" (modelled `none`); with at least one Fail
execution it saves a run in which exactly the Fail executions are reset
to Not Executed with cleared comments and actual result, every other
execution is unchanged, and the run is Not Started at index 0. -/
theorem rerunFailed_resets_failed (run : TestRun) (now : Time) :
    ((run.executions.filter (fun e => e.status == ExecStatus.fail)).length = 0 →
      handleRerunFailed run now = none) ∧
    (0 < (run.executions.filter (fun e => e.status == ExecStatus.fail)).length →
      (handleRerunFailed run now).isSome) ∧
    (∀ r', handleRerunFailed run now = some r' →
      0 < (run.executions.filter (fun e => e.status == ExecStatus.fail)).length ∧
      r'.status = some RunStatus.notStarted ∧
      r'.currentExecutionIndex = some 0 ∧
      r'.executions.length = run.executions.length ∧
      (∀ (i : Nat) (e : TestExecution), run.executions[i]? = some e →
        (e.status = ExecStatus.fail →
          r'.executions[i]? = some { e with status := ExecStatus.notExecuted,
                                            comments := "", actualResult := some "" }) ∧
        (e.status ≠ ExecStatus.fail → r'.executions[i]? = some e))) := by
  refine ⟨?_, ?_, ?_⟩
  · intro h0
    unfold handleRerunFailed
    simp [h0]
  · intro hpos
    have hb : ((run.executions.filter (fun e => e.status == ExecStatus.fail)).length == 0)
        = false := by
      rw [beq_eq_false_iff_ne]
      omega
    unfold handleRerunFailed
    simp only [hb, Bool.false_eq_true, if_false, Option.isSome_some]
  · intro r' h
    by_cases h0 : (run.executions.filter (fun e => e.status == ExecStatus.fail)).length = 0
    · unfold handleRerunFailed at h
      simp [h0] at h
    · have hb : ((run.executions.filter (fun e => e.status == ExecStatus.fail)).length == 0)
          = false := by
        rw [beq_eq_false_iff_ne]
        omega
      unfold handleRerunFailed at h
      simp only [hb, Bool.false_eq_true, if_false, Option.some.injEq] at h
      subst h
      refine ⟨by omega, rfl, rfl, List.length_map _ _, ?_⟩
      intro i e he
      constructor
      · intro hst
        show (run.executions.map _)[i]? = _
        rw [List.getElem?_map, he]
        simp [hst]
      · intro hst
        show (run.executions.map _)[i]? = _
        rw [List.getElem?_map, he]
        simp [hst]

/-- C5 witness: on a run with one failed and one passed execution, the
failed one is reset, the passed one untouched, and the run returns to Not
Started at index 0; on a run with no failures nothing is saved. -/
theorem rerunFailed_resets_failed_witness :
    handleRerunFailed runNotStarted2 4 = none ∧
    (∀ r', handleRerunFailed runWithFailure 4 = some r' →
      r'.status = some RunStatus.notStarted ∧ r'.currentExecutionIndex = some 0) := by
  constructor
  · exact (rerunFailed_resets_failed runNotStarted2 4).1 (by decide)
  · intro r' h
    have := (rerunFailed_resets_failed runWithFailure 4).2.2 r' h
    exact ⟨this.2.1, this.2.2.1⟩

/-- C6 counterexample: after start (t=100) then pause (t=200) the run is
Paused and `executionStartTime` is still set, so a `executeTestCase` call
at t=300 is NOT rejected: it records the Pass outcome into execution 0
and even moves the run's status out of Paused — the engine performs no
run-status check, only the UI hides the buttons. -/
theorem recordExecution_paused_writes_cex :
    (pauseExecution 200 (startExecution 100 (initExecutor runNotStarted2))).run.status =
      some RunStatus.paused ∧
    (executeTestCase outcomePass
      (pauseExecution 200 (startExecution 100 (initExecutor runNotStarted2)))).run.status =
      some RunStatus.inProgress ∧
    ((executeTestCase outcomePass
      (pauseExecution 200 (startExecution 100 (initExecutor runNotStarted2)))).run.executions[0]?).map
        (fun e => e.status) = some ExecStatus.pass ∧
    (executeTestCase outcomePass
      (pauseExecution 200 (startExecution 100 (initExecutor runNotStarted2)))).run ≠
      (pauseExecution 200 (startExecution 100 (initExecutor runNotStarted2))).run := by
  refine ⟨rfl, rfl, rfl, ?_⟩
  decide

/-- C6 (amended): `executeTestCase` returns without any write exactly
when its own guard fires — no execution at the cursor or no recorded
execution start time; it checks nothing about the run's status, so a
recording attempt in a non-In-Progress state with the guard satisfied
(e.g. while Paused after a pause) proceeds and mutates the stored run. -/
theorem recordExecution_guard_amended (o : ExecOutcome) (s : ExecutorState)
    (h : s.run.executions[s.currentIndex]? = none ∨ s.executionStartTime = none) :
    executeTestCase o s = s := by
  unfold executeTestCase
  cases hE : s.run.executions[s.currentIndex]? with
  | none =>
    cases hT : s.executionStartTime with
    | none => rfl
    | some t => rfl
  | some e =>
    cases hT : s.executionStartTime with
    | none => rfl
    | some t =>
      rw [hE, hT] at h
      rcases h with h | h <;> exact absurd h (by simp)

/-- C6 witness: on a freshly mounted executor (no start yet) the guard
fires and nothing changes. -/
theorem recordExecution_guard_amended_witness :
    executeTestCase outcomePass (initExecutor runNotStarted2) =
      initExecutor runNotStarted2 := by
  exact recordExecution_guard_amended outcomePass (initExecutor runNotStarted2) (Or.inr rfl)

/-- C9 counterexample: importing a parseable snapshot that contains no
collections at all still mutates the audit-log collection (the
`'Imported data'` audit entry is appended), so "leaves every absent
collection untouched" fails for the audit log. -/
theorem importData_absent_audit_touched_cex :
    emptySnapshot.auditLogs = none ∧
    (importData (some emptySnapshot) emptyStore "audit-id" 5).1 = true ∧
    (importData (some emptySnapshot) emptyStore "audit-id" 5).2.auditLogs ≠
      emptyStore.auditLogs := by
  refine ⟨rfl, rfl, ?_⟩
  decide

/-- C9 (amended): a snapshot that fails to parse makes `importData`
return false with no collection mutated; a parseable snapshot yields
true, overwrites exactly the collections present, and leaves every absent
collection untouched — except the audit log, which always ends as the
(possibly overwritten) stored audit log with one appended
`'Imported data'` entry.  In particular a snapshot missing the `history`
key preserves the stored history. -/
theorem importData_collection_isolation :
    (∀ (st : Store) (newId : String) (now : Time),
      importData none st newId now = (false, st)) ∧
    (∀ (d : Snapshot) (st : Store) (newId : String) (now : Time) (ok : Bool) (st' : Store),
      importData (some d) st newId now = (ok, st') →
      ok = true ∧
      (d.history = none → st'.history = st.history) ∧
      (d.testCases = none → st'.testCases = st.testCases) ∧
      (d.testSuites = none → st'.testSuites = st.testSuites) ∧
      (d.testRuns = none → st'.testRuns = st.testRuns) ∧
      (d.executions = none → st'.executions = st.executions) ∧
      (∀ l, d.testCases = some l → st'.testCases = l) ∧
      (∀ l, d.testSuites = some l → st'.testSuites = l) ∧
      (∀ l, d.testRuns = some l → st'.testRuns = l) ∧
      (∀ l, d.executions = some l → st'.executions = l) ∧
      (∀ l, d.history = some l → st'.history = l) ∧
      st'.auditLogs = logAuditAppend (d.auditLogs.getD st.auditLogs)
        (mkAuditLog newId "Imported data" EntityType.testCase "bulk-import" now)) := by
  constructor
  · intro st newId now
    rfl
  · intro d st newId now ok st' h
    unfold importData at h
    injection h with h1 h2
    subst h1
    subst h2
    refine ⟨rfl, ?_, ?_, ?_, ?_, ?_, ?_, ?_, ?_, ?_, ?_, rfl⟩
    · intro hn; show d.history.getD st.history = st.history; rw [hn]; rfl
    · intro hn; show d.testCases.getD st.testCases = st.testCases; rw [hn]; rfl
    · intro hn; show d.testSuites.getD st.testSuites = st.testSuites; rw [hn]; rfl
    · intro hn; show d.testRuns.getD st.testRuns = st.testRuns; rw [hn]; rfl
    · intro hn; show d.executions.getD st.executions = st.executions; rw [hn]; rfl
    · intro l hl; show d.testCases.getD st.testCases = l; rw [hl]; rfl
    · intro l hl; show d.testSuites.getD st.testSuites = l; rw [hl]; rfl
    · intro l hl; show d.testRuns.getD st.testRuns = l; rw [hl]; rfl
    · intro l hl; show d.executions.getD st.executions = l; rw [hl]; rfl
    · intro l hl; show d.history.getD st.history = l; rw [hl]; rfl

/-- C9 witness: a snapshot carrying only test cases succeeds, overwrites
the test-case collection, and preserves the absent history collection. -/
theorem importData_collection_isolation_witness :
    importData none emptyStore "audit-id" 5 = (false, emptyStore) ∧
    (importData (some { testCases := some [tcA] }) emptyStore "audit-id" 5).1 = true ∧
    (importData (some { testCases := some [tcA] }) emptyStore "audit-id" 5).2.history =
      emptyStore.history ∧
    (importData (some { testCases := some [tcA] }) emptyStore "audit-id" 5).2.testCases =
      [tcA] := by
  have h1 := importData_collection_isolation.1 emptyStore "audit-id" 5
  have h2 := importData_collection_isolation.2 { testCases := some [tcA] } emptyStore
    "audit-id" 5
    (importData (some { testCases := some [tcA] }) emptyStore "audit-id" 5).1
    (importData (some { testCases := some [tcA] }) emptyStore "audit-id" 5).2 rfl
  exact ⟨h1, h2.1, h2.2.1 rfl, h2.2.2.2.2.2.2.1 [tcA] rfl⟩

/-- C4 counterexample: a nonempty collection whose single execution has
status Not Executed gives all four rates 0, so the four rates sum to 0,
not 100 (the claimed "sum to 100% up to rounding" fails). -/
theorem executionMetrics_sum_cex :
    0 < ([execBlank] : List TestExecution).length ∧
    (getExecutionMetrics [execBlank]).passRate + (getExecutionMetrics [execBlank]).failRate +
      (getExecutionMetrics [execBlank]).skipRate + (getExecutionMetrics [execBlank]).blockRate
      = 0 ∧
    (0 : ℚ) ≠ 100 := by
  have h1 : countStatus ExecStatus.pass [execBlank] = 0 := rfl
  have h2 : countStatus ExecStatus.fail [execBlank] = 0 := rfl
  have h3 : countStatus ExecStatus.skipped [execBlank] = 0 := rfl
  have h4 : countStatus ExecStatus.blocked [execBlank] = 0 := rfl
  refine ⟨by decide, ?_, by norm_num⟩
  simp only [getExecutionMetrics, h1, h2, h3, h4]
  norm_num

/-- C4 (amended): each rate of `getMetrics` equals
`count(status)/totalExecutions×100`; all four are 0 when
`totalExecutions = 0`; and the four rates sum to 100% exactly when every
recorded execution carries one of the four counted statuses (Pass, Fail,
Skipped, Blocked) — executions with any other status make the sum fall
short of 100%. -/
theorem executionMetrics_rates (execs : List TestExecution) :
    (execs.length = 0 →
      (getExecutionMetrics execs).passRate = 0 ∧
      (getExecutionMetrics execs).failRate = 0 ∧
      (getExecutionMetrics execs).skipRate = 0 ∧
      (getExecutionMetrics execs).blockRate = 0) ∧
    (0 < execs.length →
      (getExecutionMetrics execs).passRate =
        (countStatus ExecStatus.pass execs : ℚ) / execs.length * 100 ∧
      (getExecutionMetrics execs).failRate =
        (countStatus ExecStatus.fail execs : ℚ) / execs.length * 100 ∧
      (getExecutionMetrics execs).skipRate =
        (countStatus ExecStatus.skipped execs : ℚ) / execs.length * 100 ∧
      (getExecutionMetrics execs).blockRate =
        (countStatus ExecStatus.blocked execs : ℚ) / execs.length * 100) ∧
    (0 < execs.length →
      (∀ e ∈ execs, e.status = ExecStatus.pass ∨ e.status = ExecStatus.fail ∨
        e.status = ExecStatus.skipped ∨ e.status = ExecStatus.blocked) →
      (getExecutionMetrics execs).passRate + (getExecutionMetrics execs).failRate +
        (getExecutionMetrics execs).skipRate + (getExecutionMetrics execs).blockRate = 100) := by
  refine ⟨?_, ?_, ?_⟩
  · intro h0
    simp [getExecutionMetrics, h0]
  · intro hpos
    simp [getExecutionMetrics, hpos]
  · intro hpos hall
    have hc := countStatus_four_eq_length execs hall
    have hcq : (countStatus ExecStatus.pass execs : ℚ) + countStatus ExecStatus.fail execs +
        countStatus ExecStatus.skipped execs + countStatus ExecStatus.blocked execs =
        (execs.length : ℚ) := by
      exact_mod_cast congrArg (Nat.cast : Nat → ℚ) hc
    have hn : (execs.length : ℚ) ≠ 0 := by
      exact_mod_cast Nat.pos_iff_ne_zero.mp hpos
    simp only [getExecutionMetrics, if_pos hpos]
    field_simp
    linear_combination 100 * hcq

/-- C4 witness: one passed and one failed execution give 50% each and sum
to 100%; the empty collection gives all-zero rates. -/
theorem executionMetrics_rates_witness :
    ((getExecutionMetrics ([] : List TestExecution)).passRate = 0 ∧
      (getExecutionMetrics ([] : List TestExecution)).failRate = 0 ∧
      (getExecutionMetrics ([] : List TestExecution)).skipRate = 0 ∧
      (getExecutionMetrics ([] : List TestExecution)).blockRate = 0) ∧
    (getExecutionMetrics [execPassed, execFailed]).passRate +
      (getExecutionMetrics [execPassed, execFailed]).failRate +
      (getExecutionMetrics [execPassed, execFailed]).skipRate +
      (getExecutionMetrics [execPassed, execFailed]).blockRate = 100 := by
  constructor
  · exact (executionMetrics_rates []).1 rfl
  · exact (executionMetrics_rates [execPassed, execFailed]).2.2 (by decide) (by decide)

/-- C7: a created test case has version 1; each successful in-place
update through `saveTestCase` raises the version by exactly 1 and stamps
`updatedAt` with the write time; hence after N successful updates of a
record the version is the original plus N (1+N for a fresh record). -/
theorem saveTestCase_version_invariant :
    (∀ (p : TestCaseInput) (tcs : List TestCase) (newId : String) (now : Time)
      (tc : TestCase) (rest : List TestCase),
      (if idTruthy p.id then tcs.find? (fun t => t.id == p.id.getD "") else none) = none →
      saveTestCase p tcs newId now = (tc, rest) →
      tc.version = 1 ∧ tc.updatedAt = now ∧ tc.createdAt = now) ∧
    (∀ (p : TestCaseInput) (tcs : List TestCase) (newId : String) (now : Time)
      (ex : TestCase) (tc : TestCase) (rest : List TestCase),
      (if idTruthy p.id then tcs.find? (fun t => t.id == p.id.getD "") else none) = some ex →
      saveTestCase p tcs newId now = (tc, rest) →
      tc.version = ex.version + 1 ∧ tc.updatedAt = now) ∧
    (∀ (i : String) (tcs : List TestCase) (cur : TestCase)
      (steps : List (TestCaseInput × Time)),
      i ≠ "" → getTestCase i tcs = some cur →
      ∃ tc', getTestCase i (applyUpdates i steps tcs) = some tc' ∧
        tc'.version = cur.version + steps.length) := by
  refine ⟨?_, ?_, ?_⟩
  · intro p tcs newId now tc rest hnone h
    unfold saveTestCase at h
    rw [hnone] at h
    injection h with h1 _
    subst h1
    exact ⟨rfl, rfl, rfl⟩
  · intro p tcs newId now ex tc rest hsome h
    unfold saveTestCase at h
    rw [hsome] at h
    injection h with h1 _
    subst h1
    exact ⟨rfl, rfl⟩
  · intro i tcs cur steps hi hfind
    exact applyUpdates_version i hi steps tcs cur hfind

/-- C7 witness: creating a record yields version 1; a first in-place
update of `tcA` yields version 2; two successive updates of `tcA` land at
version 1 + 2 = 3. -/
theorem saveTestCase_version_invariant_witness :
    ((saveTestCase emptyTCInput [] "fresh" 7).1.version = 1 ∧
      (saveTestCase emptyTCInput [] "fresh" 7).1.updatedAt = 7) ∧
    (saveTestCase { emptyTCInput with id := some "a" } [tcA] "unused" 8).1.version =
      tcA.version + 1 ∧
    (∃ tc', getTestCase "a"
        (applyUpdates "a" [(emptyTCInput, 5), (emptyTCInput, 6)] [tcA]) = some tc' ∧
      tc'.version = tcA.version + 2) := by
  refine ⟨?_, ?_, ?_⟩
  · have h := saveTestCase_version_invariant.1 emptyTCInput [] "fresh" 7
      (saveTestCase emptyTCInput [] "fresh" 7).1
      (saveTestCase emptyTCInput [] "fresh" 7).2 rfl rfl
    exact ⟨h.1, h.2.1⟩
  · have h := saveTestCase_version_invariant.2.1 { emptyTCInput with id := some "a" }
      [tcA] "unused" 8 tcA
      (saveTestCase { emptyTCInput with id := some "a" } [tcA] "unused" 8).1
      (saveTestCase { emptyTCInput with id := some "a" } [tcA] "unused" 8).2
      (by decide) rfl
    exact h.1
  · exact saveTestCase_version_invariant.2.2 "a" [tcA] tcA
      [(emptyTCInput, 5), (emptyTCInput, 6)] (by decide) (by decide)

/-- C1: while In Progress with the cursor at the persisted
`currentExecutionIndex`, `executeTestCase` writes the full outcome
(status, actual result, comments, step results, `executedAt`, computed
duration, executor) into the execution at that index; if the index is the
last one it completes the run and stamps `completedAt`, otherwise it
advances `currentExecutionIndex` by exactly 1, keeps the run In Progress
and leaves `completedAt` unset.  Over a full run of n executions started
from Not Started at index 0, every proper prefix of recordings leaves the
run In Progress with `completedAt` unset and the index equal to the
number of recordings, and the final recording — and only it — completes
the run and sets `completedAt` to its time. -/
theorem recordExecution_state_machine :
    (∀ (s : ExecutorState) (o : ExecOutcome) (e : TestExecution) (t : Time),
      s.run.status = some RunStatus.inProgress →
      s.run.currentExecutionIndex = some s.currentIndex →
      s.run.executions[s.currentIndex]? = some e →
      s.executionStartTime = some t →
      ((executeTestCase o s).run.executions[s.currentIndex]? =
          some { e with
                 status := o.status
                 actualResult := some o.actualResult
                 comments := o.comments
                 stepResults := some o.stepResults
                 executedAt := o.now
                 duration := some ((o.now - t) / 1000)
                 executedBy := "Current User" } ∧
        (s.currentIndex + 1 = s.run.executions.length →
          (executeTestCase o s).run.status = some RunStatus.completed ∧
          (executeTestCase o s).run.completedAt = some o.now ∧
          (executeTestCase o s).run.currentExecutionIndex = some s.currentIndex) ∧
        (s.currentIndex + 1 < s.run.executions.length →
          (executeTestCase o s).run.status = some RunStatus.inProgress ∧
          (executeTestCase o s).run.currentExecutionIndex = some (s.currentIndex + 1) ∧
          (executeTestCase o s).run.completedAt = none))) ∧
    (∀ (run : TestRun) (t0 : Time) (os : List ExecOutcome) (n : Nat),
      run.status = some RunStatus.notStarted →
      run.currentExecutionIndex = some 0 →
      run.completedAt = none →
      run.executions.length = n →
      os.length = n →
      1 ≤ n →
      (∀ k, k < n →
        (recordMany (os.take k) (startExecution t0 (initExecutor run))).run.status =
          some RunStatus.inProgress ∧
        (recordMany (os.take k) (startExecution t0 (initExecutor run))).run.currentExecutionIndex =
          some k ∧
        (recordMany (os.take k) (startExecution t0 (initExecutor run))).run.completedAt = none) ∧
      (∀ o, os[n - 1]? = some o →
        (recordMany os (startExecution t0 (initExecutor run))).run.status =
          some RunStatus.completed ∧
        (recordMany os (startExecution t0 (initExecutor run))).run.completedAt = some o.now)) := by
  constructor
  · intro s o e t h1 h2 he ht
    have hlt : s.currentIndex < s.run.executions.length := by
      rcases List.getElem?_eq_some.mp he with ⟨hl, _⟩
      exact hl
    unfold executeTestCase
    rw [he, ht]
    by_cases hL : s.currentIndex = s.run.executions.length - 1
    · have hb : (s.currentIndex == s.run.executions.length - 1) = true := by
        rw [beq_iff_eq]
        exact hL
      simp only [hb, if_true]
      refine ⟨?_, ?_, ?_⟩
      · show (s.run.executions.set s.currentIndex _)[s.currentIndex]? = _
        rw [List.getElem?_set, if_pos rfl, if_pos hlt]
      · intro _
        refine ⟨?_, ?_, ?_⟩ <;> trivial
      · intro hlt2
        exact absurd hlt2 (by omega)
    · have hb : (s.currentIndex == s.run.executions.length - 1) = false :=
        beq_eq_false_iff_ne.mpr hL
      simp only [hb, Bool.false_eq_true, if_false]
      refine ⟨?_, ?_, ?_⟩
      · show (s.run.executions.set s.currentIndex _)[s.currentIndex]? = _
        rw [List.getElem?_set, if_pos rfl, if_pos hlt]
      · intro hEq
        exact absurd hEq (by omega)
      · intro _
        refine ⟨?_, ?_, ?_⟩ <;> trivial
  · intro run t0 os n hns hidx hcomp hlen hoslen hn
    have hInv0 : StepInv n 0 (startExecution t0 (initExecutor run)) :=
      startExecution_inv run t0 n hidx hlen hcomp
    constructor
    · intro k hk
      have htake : (os.take k).length = k := by
        rw [List.length_take]
        omega
      have h := recordMany_mid (os.take k) (startExecution t0 (initExecutor run)) n 0 hInv0
        (by rw [htake]; omega)
      have h' : StepInv n k (recordMany (os.take k) (startExecution t0 (initExecutor run))) := by
        rw [htake] at h
        simpa using h
      obtain ⟨a1, _, a3, _, _, a6⟩ := h'
      exact ⟨a1, a3, a6⟩
    · intro o ho
      obtain ⟨hlt', hget⟩ := List.getElem?_eq_some.mp ho
      have hdropn : os.drop n = [] := by
        rw [← hoslen]
        exact List.drop_length os
      have hdrop : os.drop (n - 1) = [o] := by
        rw [List.drop_eq_getElem_cons hlt', hget]
        have hn1 : n - 1 + 1 = n := by omega
        rw [hn1, hdropn]
      have hsplit : os = os.take (n - 1) ++ [o] := by
        conv_lhs => rw [← List.take_append_drop (n - 1) os]
        rw [hdrop]
      have htake : (os.take (n - 1)).length = n - 1 := by
        rw [List.length_take]
        omega
      have hmid : StepInv n (n - 1)
          (recordMany (os.take (n - 1)) (startExecution t0 (initExecutor run))) := by
        have h := recordMany_mid (os.take (n - 1)) (startExecution t0 (initExecutor run)) n 0
          hInv0 (by rw [htake]; omega)
        rw [htake] at h
        simpa using h
      have hfin := executeTestCase_last o
        (recordMany (os.take (n - 1)) (startExecution t0 (initExecutor run))) n hmid hn
      have happ : recordMany (os.take (n - 1) ++ [o]) (startExecution t0 (initExecutor run)) =
          executeTestCase o
            (recordMany (os.take (n - 1)) (startExecution t0 (initExecutor run))) := by
        unfold recordMany
        rw [List.foldl_append]
        rfl
      constructor
      · rw [hsplit, happ]
        exact hfin.1
      · rw [hsplit, happ]
        exact hfin.2.1

/-- C1 witness: on the two-execution run, the first recording keeps the
run In Progress at index 1 with no `completedAt`; recording both
outcomes completes the run with `completedAt` equal to the second
recording's time. -/
theorem recordExecution_state_machine_witness :
    ((executeTestCase outcomePass (startExecution 100 (initExecutor runNotStarted2))).run.status =
      some RunStatus.inProgress ∧
     (executeTestCase outcomePass
        (startExecution 100 (initExecutor runNotStarted2))).run.currentExecutionIndex = some 1 ∧
     (executeTestCase outcomePass
        (startExecution 100 (initExecutor runNotStarted2))).run.completedAt = none) ∧
    ((recordMany [outcomePass, outcomeFail]
        (startExecution 100 (initExecutor runNotStarted2))).run.status =
      some RunStatus.completed ∧
     (recordMany [outcomePass, outcomeFail]
        (startExecution 100 (initExecutor runNotStarted2))).run.completedAt = some 400) := by
  constructor
  · have h := recordExecution_state_machine.1
      (startExecution 100 (initExecutor runNotStarted2)) outcomePass execBlank 100
      rfl rfl rfl rfl
    exact h.2.2 (by decide)
  · have h := recordExecution_state_machine.2 runNotStarted2 100 [outcomePass, outcomeFail] 2
      rfl rfl rfl rfl rfl (by decide)
    exact h.2 outcomeFail rfl
